import Mathlib

/-
Verification of the streaming audio session engine of the live-translator
application (src/App.tsx, src/types.ts, src/constants.ts).

The engine is embedded shallowly: the React component state and refs of
src/App.tsx become one record `AppState`; each event handler of the source
(the transcript branches of `onmessage`, the audio branch, the interruption
branch, `stopAudio`, `connect`, `updateLastMessage`) becomes a pure state
transformer.  Machine time (the output AudioContext clock `currentTime`)
is passed explicitly as a rational argument `now` where the source reads it.
-/

namespace LiveTranslator

/-- MessageRole from src/types.ts: USER = `user`, MODEL = `model`. -/
inductive MessageRole where
  | user
  | model
deriving DecidableEq, Repr

/-- ChatMessage from src/types.ts: `\x7bid, role, text, isFinal, timestamp\x7d`.
The source uses `Date.now().toString()` for ids and `Date.now()` for
timestamps; the model draws both from the monotone counter `nextId`. -/
structure ChatMessage where
  id : Nat
  role : MessageRole
  text : String
  isFinal : Bool
  timestamp : Nat
deriving DecidableEq, Repr

/-- ConnectionState from src/types.ts. -/
inductive ConnectionState where
  | disconnected
  | connecting
  | connected
  | error
deriving DecidableEq, Repr

/-- One scheduled playback segment: an element of `audioSourcesRef` in
src/App.tsx together with the start time passed to `source.start` and the
decoded buffer duration. -/
structure Segment where
  startAt : ℚ
  duration : ℚ
deriving DecidableEq, Repr

/-- A decoded playback buffer (result of `decodeAudioData`). -/
structure PlaybackBuffer where
  sampleCount : Nat
  sampleRate : ℚ
  duration : ℚ
deriving DecidableEq, Repr

/-- The state of the App component of src/App.tsx: the `useState` cells and
the mutable refs that the session engine reads and writes.
`nextStartTime` is `nextStartTimeRef`, `audioSources` is `audioSourcesRef`
(kept in insertion order), `currentInputTrans`/`currentOutputTrans` are the
transcription accumulation buffers, `hasInputContext`/`hasOutputContext`
record whether `inputContextRef`/`outputContextRef` hold a context,
`micAcquired` records a successful `getUserMedia`, and `sessionsOpened`
counts calls of `ai.live.connect`. -/
structure AppState where
  connectionState : ConnectionState
  messages : List ChatMessage
  isMicMuted : Bool
  isSpeakerMuted : Bool
  errorMsg : Option String
  nextStartTime : ℚ
  audioSources : List Segment
  currentInputTrans : String
  currentOutputTrans : String
  nextId : Nat
  hasInputContext : Bool
  hasOutputContext : Bool
  micAcquired : Bool
  sessionsOpened : Nat
deriving DecidableEq, Repr

/-- The initial component state (src/App.tsx lines 20-41). -/
def initialState : AppState :=
  { connectionState := ConnectionState.disconnected
    messages := []
    isMicMuted := false
    isSpeakerMuted := false
    errorMsg := none
    nextStartTime := 0
    audioSources := []
    currentInputTrans := ""
    currentOutputTrans := ""
    nextId := 0
    hasInputContext := false
    hasOutputContext := false
    micAcquired := false
    sessionsOpened := 0 }

/-- The guard `text.trim().length > 0` of src/App.tsx line 269: trimming
removes leading and trailing whitespace, so the trimmed text has positive
length exactly when some character of `text` is not whitespace. -/
def containsNonWs (text : String) : Bool :=
  text.data.any (fun c => !c.isWhitespace)

/-- updateLastMessage from src/App.tsx lines 263-280: if the final array
element exists, has the given role and is not final, it is replaced in
place with the new text and finality; otherwise, if the text is non-empty
after trimming, a fresh entry is appended; otherwise the log is unchanged. -/
def updateLastMessage (role : MessageRole) (text : String) (isFinal : Bool)
    (newId : Nat) (prev : List ChatMessage) : List ChatMessage :=
  match prev.getLast? with
  | some lastMsg =>
      if lastMsg.role = role ∧ lastMsg.isFinal = false then
        prev.dropLast ++ [{ lastMsg with text := text, isFinal := isFinal }]
      else if containsNonWs text = true then
        prev ++ [{ id := newId, role := role, text := text,
                   isFinal := isFinal, timestamp := newId }]
      else prev
  | none =>
      if containsNonWs text = true then
        prev ++ [{ id := newId, role := role, text := text,
                   isFinal := isFinal, timestamp := newId }]
      else prev

/-- The `serverContent?.inputTranscription` branch of onmessage
(src/App.tsx lines 164-170): a truthy (non-empty) fragment is appended to
the USER accumulation buffer and the log is reconciled with the grown
buffer as a non-final USER entry. -/
def handleInputTranscription (text : String) (s : AppState) : AppState :=
  if text = "" then s
  else
    { s with currentInputTrans := s.currentInputTrans ++ text
             messages := updateLastMessage MessageRole.user
               (s.currentInputTrans ++ text) false s.nextId s.messages
             nextId := s.nextId + 1 }

/-- The `serverContent?.outputTranscription` branch of onmessage
(src/App.tsx lines 172-178), symmetric to the input branch for the MODEL
role. -/
def handleOutputTranscription (text : String) (s : AppState) : AppState :=
  if text = "" then s
  else
    { s with currentOutputTrans := s.currentOutputTrans ++ text
             messages := updateLastMessage MessageRole.model
               (s.currentOutputTrans ++ text) false s.nextId s.messages
             nextId := s.nextId + 1 }

/-- appendDelta of the spec, as realised by the two transcription branches
of onmessage: a USER delta is the input branch, a MODEL delta the output
branch. -/
def appendDelta (role : MessageRole) (text : String) (s : AppState) : AppState :=
  match role with
  | MessageRole.user => handleInputTranscription text s
  | MessageRole.model => handleOutputTranscription text s

/-- First block of the turnComplete branch (src/App.tsx lines 182-185):
if the USER buffer is truthy, reconcile it as final and clear it. -/
def sealInputBuffer (s : AppState) : AppState :=
  if s.currentInputTrans = "" then s
  else
    { s with messages := updateLastMessage MessageRole.user
               s.currentInputTrans true s.nextId s.messages
             nextId := s.nextId + 1
             currentInputTrans := "" }

/-- Second block of the turnComplete branch (src/App.tsx lines 186-189):
if the MODEL buffer is truthy, reconcile it as final and clear it. -/
def sealOutputBuffer (s : AppState) : AppState :=
  if s.currentOutputTrans = "" then s
  else
    { s with messages := updateLastMessage MessageRole.model
               s.currentOutputTrans true s.nextId s.messages
             nextId := s.nextId + 1
             currentOutputTrans := "" }

/-- The `serverContent?.turnComplete` branch of onmessage (src/App.tsx
lines 181-190, the spec sealTurn): each role whose accumulation buffer is
non-empty has its entry reconciled as final and the buffer cleared, USER
first, then MODEL. -/
def handleTurnComplete (s : AppState) : AppState :=
  sealOutputBuffer (sealInputBuffer s)

/-- The output AudioContext sample rate (src/App.tsx line 58). -/
def outputSampleRate : ℚ := 24000

/-- Modelled from the spec: `decodeAudioData` lives in
src/utils/audioUtils.ts, which is not present under src/.  Spec section
4.1: the bytes are reinterpreted as little-endian 16-bit signed integers,
so decoding fails with DecodeError when the byte length is not a multiple
of 2; on success the buffer has `sampleCount = length / 2` samples and
`durationSeconds = sampleCount / outputRate`.  Only the failure condition
and the duration are consumed by the engine model. -/
def decodeAudioData (bytes : List Nat) (outputRate : ℚ) : Option PlaybackBuffer :=
  if bytes.length % 2 = 0 then
    some { sampleCount := bytes.length / 2
           sampleRate := outputRate
           duration := ((bytes.length / 2 : Nat) : ℚ) / outputRate }
  else none

/-- The audio branch of onmessage (src/App.tsx lines 194-220): when audio
data is present, an output context exists and the speaker is not muted,
the bytes are decoded inside a try/catch; on success the segment is
scheduled at `max nextStartTime currentTime` and the clock advances by the
buffer duration; on a decode failure the error is logged to the console
and the state is untouched. -/
def handleAudioChunk (audioData : Option (List Nat)) (now : ℚ) (s : AppState) : AppState :=
  match audioData with
  | none => s
  | some bytes =>
    if s.hasOutputContext = true ∧ s.isSpeakerMuted = false then
      match decodeAudioData bytes outputSampleRate with
      | none => s
      | some buffer =>
          { s with nextStartTime := max s.nextStartTime now + buffer.duration
                   audioSources := s.audioSources
                     ++ [{ startAt := max s.nextStartTime now
                           duration := buffer.duration }] }
    else s

/-- The playback half of the interruption branch (src/App.tsx lines
224-226, the spec stopAll): every live source is stopped, the live set is
cleared, and the clock is reset to `outputContext?.currentTime || 0`. -/
def stopAllSources (now : ℚ) (s : AppState) : AppState :=
  { s with audioSources := ([] : List Segment)
           nextStartTime := if s.hasOutputContext = true then now else 0 }

/-- The transcript half of the interruption branch (src/App.tsx lines
228-231, the spec sealOnInterrupt): if the MODEL buffer is truthy, the log
is reconciled with `buffer ++ " [Interrupted]"` as final and the buffer is
cleared. -/
def sealOnInterrupt (s : AppState) : AppState :=
  if s.currentOutputTrans = "" then s
  else
    { s with messages := updateLastMessage MessageRole.model
               (s.currentOutputTrans ++ " [Interrupted]") true s.nextId s.messages
             nextId := s.nextId + 1
             currentOutputTrans := "" }

/-- The `serverContent?.interrupted` branch of onmessage (src/App.tsx
lines 223-232): stop and clear the live sources and reset the clock, then
seal the MODEL buffer with the interruption marker. -/
def handleInterrupted (now : ℚ) (s : AppState) : AppState :=
  sealOnInterrupt (stopAllSources now s)

/-- An inbound LiveServerMessage as consumed by onmessage: the transcript
fragments (empty string for an absent or empty field, which the source
treats identically via truthiness), the turn-complete flag, the optional
inline audio payload and the interruption flag. -/
structure ServerMsg where
  inputTranscriptionText : String
  outputTranscriptionText : String
  turnComplete : Bool
  audioData : Option (List Nat)
  interrupted : Bool

/-- onmessage from src/App.tsx lines 160-233: the branches run in source
order on a single message. -/
def onmessage (msg : ServerMsg) (now : ℚ) (s : AppState) : AppState :=
  let s1 := handleInputTranscription msg.inputTranscriptionText s
  let s2 := handleOutputTranscription msg.outputTranscriptionText s1
  let s3 := if msg.turnComplete = true then handleTurnComplete s2 else s2
  let s4 := handleAudioChunk msg.audioData now s3
  if msg.interrupted = true then handleInterrupted now s4 else s4

/-- stopAudio from src/App.tsx lines 62-90: stops and clears every live
source, zeroes the clock, disconnects the microphone tap and closes the
input context, then (if an output context exists) resets the clock to the
current output device time. -/
def stopAudio (now : ℚ) (s : AppState) : AppState :=
  { s with audioSources := ([] : List Segment)
           nextStartTime := if s.hasOutputContext = true then now else 0
           micAcquired := false
           hasInputContext := false }

/-- connect from src/App.tsx lines 99-255 (the spec start()), modelled up
to the opening of the remote session: when no API key is configured the
error message is set and the function returns at once; otherwise the state
becomes `connecting`, the error is cleared, the audio contexts are set up,
and the microphone is requested.  `mediaOk` tells whether `getUserMedia`
succeeds: on success the remote session is opened (counted by
`sessionsOpened`); on failure the catch block sets an error message,
returns to `disconnected` and runs stopAudio.  There is no guard on the
current connection state anywhere in the function. -/
def connect (hasApiKey : Bool) (mediaOk : Bool) (now : ℚ) (s : AppState) : AppState :=
  if hasApiKey = false then
    { s with errorMsg := some "Missing API Key in environment variables." }
  else
    let s1 := { s with connectionState := ConnectionState.connecting
                       errorMsg := none
                       hasInputContext := true
                       hasOutputContext := true }
    if mediaOk = true then
      { s1 with micAcquired := true
                sessionsOpened := s1.sessionsOpened + 1 }
    else
      stopAudio now { s1 with errorMsg := some "Failed to start session."
                              connectionState := ConnectionState.disconnected }

/-- One event of a running session, as dispatched by onmessage. -/
inductive SessionOp where
  | inputDelta (text : String)
  | outputDelta (text : String)
  | turnComplete
  | interrupted (now : ℚ)
  | audioChunk (bytes : List Nat) (now : ℚ)

/-- The effect of a single session event on the component state. -/
def stepOp (s : AppState) (op : SessionOp) : AppState :=
  match op with
  | SessionOp.inputDelta t => handleInputTranscription t s
  | SessionOp.outputDelta t => handleOutputTranscription t s
  | SessionOp.turnComplete => handleTurnComplete s
  | SessionOp.interrupted now => handleInterrupted now s
  | SessionOp.audioChunk b now => handleAudioChunk (some b) now s

/-- A sequence of session events applied in arrival order. -/
def runOps (s : AppState) (ops : List SessionOp) : AppState :=
  ops.foldl stepOp s

/-- Number of open (non-final) entries of a role in the log. -/
def openCountFor (role : MessageRole) (l : List ChatMessage) : Nat :=
  l.countP (fun m => decide (m.role = role ∧ m.isFinal = false))

/-- The invariant claimed by the spec: at most one non-final entry per role. -/
def AtMostOneOpenPerRole (l : List ChatMessage) : Prop :=
  openCountFor MessageRole.user l ≤ 1 ∧ openCountFor MessageRole.model l ≤ 1

instance instDecAtMostOneOpenPerRole (l : List ChatMessage) :
    Decidable (AtMostOneOpenPerRole l) := by
  unfold AtMostOneOpenPerRole
  exact inferInstance

/-- The last entry of the log is an open entry of the given role; this is
exactly the guard of the in-place branch of updateLastMessage. -/
def lastIsOpenFor (role : MessageRole) (l : List ChatMessage) : Prop :=
  match l.getLast? with
  | some m => m.role = role ∧ m.isFinal = false
  | none => False

instance instDecLastIsOpenFor (role : MessageRole) (l : List ChatMessage) :
    Decidable (lastIsOpenFor role l) := by
  unfold lastIsOpenFor
  cases l.getLast? <;> exact inferInstance

/-- The transcription accumulation buffer of a role. -/
def bufFor (role : MessageRole) (s : AppState) : String :=
  match role with
  | MessageRole.user => s.currentInputTrans
  | MessageRole.model => s.currentOutputTrans

/-- A sequence of appendDelta calls for one role, applied in call order. -/
def appendDeltas (role : MessageRole) (frags : List String) (s : AppState) : AppState :=
  frags.foldl (fun st f => appendDelta role f st) s

/-- Concatenation of a list of fragments in call order. -/
def concatAll : List String → String
  | [] => ""
  | f :: fs => f ++ concatAll fs

/-- One log transition performed by updateLastMessage: unchanged, append
one entry, or replace a non-final final-position entry in place. -/
def LogStep (l l' : List ChatMessage) : Prop :=
  l' = l ∨
  (∃ e, l' = l ++ [e]) ∨
  (∃ l₀ a text fin, l = l₀ ++ [a] ∧ a.isFinal = false ∧
      l' = l₀ ++ [{ a with text := text, isFinal := fin }])

/-- What a session event may do to the log: the log never shrinks, every
sealed (final) entry keeps its index and value, and every entry other than
the final-position one keeps its index and value — so the log is
append-only up to in-place mutation of the single open final-position
entry, never reordered, never deleted. -/
def SealedPreserved (l l' : List ChatMessage) : Prop :=
  l.length ≤ l'.length ∧
  (∀ (i : Nat) (m : ChatMessage), l[i]? = some m → m.isFinal = true → l'[i]? = some m) ∧
  (∀ (i : Nat) (m : ChatMessage), i + 1 < l.length → l[i]? = some m → l'[i]? = some m)

/-- Session events whose transcript deltas only concern the USER role:
USER deltas, turn completions, interruptions (which touch the MODEL
buffer only when it is non-empty) and audio chunks (which never touch
the transcript). -/
def isUserSideOp : SessionOp → Bool
  | SessionOp.inputDelta _ => true
  | SessionOp.outputDelta _ => false
  | SessionOp.turnComplete => true
  | SessionOp.interrupted _ => true
  | SessionOp.audioChunk _ _ => true

/-- Session events whose transcript deltas only concern the MODEL role:
MODEL deltas, turn completions, interruptions and audio chunks. -/
def isModelSideOp : SessionOp → Bool
  | SessionOp.inputDelta _ => false
  | SessionOp.outputDelta _ => true
  | SessionOp.turnComplete => true
  | SessionOp.interrupted _ => true
  | SessionOp.audioChunk _ _ => true

/-- Log shape maintained by single-role runs: every entry belongs to the
one role and every entry other than the last is final. -/
def GoodLog (role : MessageRole) (l : List ChatMessage) : Prop :=
  (∀ m ∈ l, m.role = role) ∧ (∀ m ∈ l.dropLast, m.isFinal = true)

/-- Invariant of USER-side runs: the MODEL buffer is empty and the log has
the single-role USER shape. -/
def UserOnlyInv (s : AppState) : Prop :=
  s.currentOutputTrans = "" ∧ GoodLog MessageRole.user s.messages

/-- Invariant of MODEL-side runs: the USER buffer is empty and the log has
the single-role MODEL shape. -/
def ModelOnlyInv (s : AppState) : Prop :=
  s.currentInputTrans = "" ∧ GoodLog MessageRole.model s.messages

/-- Invariant of an uninterrupted delta sequence for one role: either no
entry has been created yet (the whole buffer is whitespace and the final
log position holds no open entry of the role), or the final log position
holds the open entry of the role and its text is exactly the buffer. -/
def DeltaInv (role : MessageRole) (s : AppState) : Prop :=
  (¬ lastIsOpenFor role s.messages ∧ containsNonWs (bufFor role s) = false) ∨
  (∃ m, s.messages.getLast? = some m ∧ m.role = role ∧ m.isFinal = false ∧
      m.text = bufFor role s)

/-- Scheduled segments are pairwise gap-free ordered: each earlier segment
ends no later than each later segment starts. -/
def SegOrdered (l : List Segment) : Prop :=
  l.Pairwise (fun a b => a.startAt + a.duration ≤ b.startAt)

/-- Every scheduled segment ends no later than the next available start
time, and durations are nonnegative. -/
def SegBounded (s : AppState) : Prop :=
  ∀ seg ∈ s.audioSources, 0 ≤ seg.duration ∧ seg.startAt + seg.duration ≤ s.nextStartTime

/-- A sequence of inbound audio chunks (bytes paired with the output
device time at arrival), applied in arrival order. -/
def runEnqueues (s : AppState) (chunks : List (List Nat × ℚ)) : AppState :=
  chunks.foldl (fun st c => handleAudioChunk (some c.1) c.2 st) s

/-- The capture-side state relevant to microphone muting.  `micMutedState`
is the live React state cell written by `setIsMicMuted`; `handlerCaptured`
is the value of the `isMicMuted` binding captured by the
`processor.onaudioprocess` closure (src/App.tsx lines 145-154) at the
moment the handler was installed in `onopen`: in JavaScript the closure
reads the `const` binding of the render in which `connect` was invoked,
and a later `setIsMicMuted` rebinds only subsequent renders, never the
installed closure.  `sends` counts `session.sendRealtimeInput` calls. -/
structure CaptureState where
  micMutedState : Bool
  handlerCaptured : Option Bool
  sends : Nat
deriving DecidableEq, Repr

/-- Capture-side events: the UI toggling the mute flag, and a capture
frame delivered to the installed `onaudioprocess` handler. -/
inductive CaptureEvent where
  | setMicMuted (b : Bool)
  | frame

/-- Installing the handler in `onopen` (src/App.tsx line 145): the closure
captures the current value of the `isMicMuted` binding. -/
def installHandler (s : CaptureState) : CaptureState :=
  { s with handlerCaptured := some s.micMutedState }

/-- One capture-side event.  `setIsMicMuted` writes the React state cell;
a frame runs the installed handler body `if (isMicMuted) return;` followed
by encode-and-send, where `isMicMuted` is the captured binding. -/
def captureStep (s : CaptureState) : CaptureEvent → CaptureState
  | CaptureEvent.setMicMuted b => { s with micMutedState := b }
  | CaptureEvent.frame =>
      match s.handlerCaptured with
      | none => s
      | some captured => if captured = true then s else { s with sends := s.sends + 1 }

/-- A sequence of capture-side events in delivery order. -/
def captureRun (s : CaptureState) (evs : List CaptureEvent) : CaptureState :=
  evs.foldl captureStep s

/-- A concrete connected-session state used by counterexamples and
witnesses: the component state right after a successful connect. -/
def connectedState : AppState :=
  { initialState with connectionState := ConnectionState.connected
                      hasInputContext := true
                      hasOutputContext := true
                      micAcquired := true
                      sessionsOpened := 1 }

/-- A later inbound message carrying only a USER transcript fragment.
Used by concrete instantiations. -/
def laterMsg : ServerMsg :=
  { inputTranscriptionText := "ok"
    outputTranscriptionText := ""
    turnComplete := false
    audioData := none
    interrupted := false }

/-- The buffer decoded from a two-byte chunk: one sample at the output
rate.  Used by concrete instantiations. -/
def twoByteBuffer : PlaybackBuffer :=
  { sampleCount := 1
    sampleRate := outputSampleRate
    duration := ((1 : Nat) : ℚ) / outputSampleRate }

/-! ### Case lemmas for updateLastMessage -/

theorem lastIsOpenFor_nil (role : MessageRole) : ¬ lastIsOpenFor role [] := by
  unfold lastIsOpenFor
  simp

theorem lastIsOpenFor_concat (role : MessageRole) (l : List ChatMessage) (a : ChatMessage) :
    lastIsOpenFor role (l ++ [a]) ↔ (a.role = role ∧ a.isFinal = false) := by
  unfold lastIsOpenFor
  rw [List.getLast?_concat]

theorem updateLastMessage_nil (role : MessageRole) (text : String) (fin : Bool) (newId : Nat) :
    updateLastMessage role text fin newId []
      = if containsNonWs text = true then
          [{ id := newId, role := role, text := text, isFinal := fin, timestamp := newId }]
        else [] := by
  rfl

theorem updateLastMessage_concat_open {l : List ChatMessage} {a : ChatMessage}
    (role : MessageRole) (text : String) (fin : Bool) (newId : Nat)
    (h1 : a.role = role) (h2 : a.isFinal = false) :
    updateLastMessage role text fin newId (l ++ [a])
      = l ++ [{ a with text := text, isFinal := fin }] := by
  unfold updateLastMessage
  rw [List.getLast?_concat]
  simp [h1, h2]

theorem updateLastMessage_concat_not_open {l : List ChatMessage} {a : ChatMessage}
    (role : MessageRole) (text : String) (fin : Bool) (newId : Nat)
    (h : ¬ (a.role = role ∧ a.isFinal = false)) :
    updateLastMessage role text fin newId (l ++ [a])
      = if containsNonWs text = true then
          (l ++ [a]) ++ [{ id := newId, role := role, text := text,
                           isFinal := fin, timestamp := newId }]
        else l ++ [a] := by
  unfold updateLastMessage
  rw [List.getLast?_concat]
  simp [h]

theorem updateLastMessage_of_not_open {role : MessageRole} {l : List ChatMessage}
    (text : String) (fin : Bool) (newId : Nat) (h : ¬ lastIsOpenFor role l) :
    updateLastMessage role text fin newId l
      = if containsNonWs text = true then
          l ++ [{ id := newId, role := role, text := text,
                  isFinal := fin, timestamp := newId }]
        else l := by
  rcases List.eq_nil_or_concat l with rfl | ⟨l₀, a, rfl⟩
  · exact updateLastMessage_nil role text fin newId
  · rw [List.concat_eq_append] at h ⊢
    have h' : ¬ (a.role = role ∧ a.isFinal = false) := by
      intro hc
      exact h ((lastIsOpenFor_concat role l₀ a).mpr hc)
    exact updateLastMessage_concat_not_open role text fin newId h'

/-! ### LogStep and SealedPreserved -/

theorem logStep_updateLastMessage (role : MessageRole) (text : String) (fin : Bool)
    (newId : Nat) (l : List ChatMessage) :
    LogStep l (updateLastMessage role text fin newId l) := by
  rcases List.eq_nil_or_concat l with rfl | ⟨l₀, a, rfl⟩
  · rw [updateLastMessage_nil]
    split
    · exact Or.inr (Or.inl ⟨_, rfl⟩)
    · exact Or.inl rfl
  · rw [List.concat_eq_append]
    by_cases hopen : a.role = role ∧ a.isFinal = false
    · rw [updateLastMessage_concat_open role text fin newId hopen.1 hopen.2]
      exact Or.inr (Or.inr ⟨l₀, a, text, fin, rfl, hopen.2, rfl⟩)
    · rw [updateLastMessage_concat_not_open role text fin newId hopen]
      split
      · exact Or.inr (Or.inl ⟨_, rfl⟩)
      · exact Or.inl rfl

theorem sealedPreserved_refl (l : List ChatMessage) : SealedPreserved l l :=
  ⟨le_refl _, fun _ _ h _ => h, fun _ _ _ h => h⟩

theorem sealedPreserved_trans {l1 l2 l3 : List ChatMessage}
    (h12 : SealedPreserved l1 l2) (h23 : SealedPreserved l2 l3) :
    SealedPreserved l1 l3 := by
  obtain ⟨hlen12, hseal12, hpre12⟩ := h12
  obtain ⟨hlen23, hseal23, hpre23⟩ := h23
  refine ⟨le_trans hlen12 hlen23, ?_, ?_⟩
  · intro i m hm hfin
    exact hseal23 i m (hseal12 i m hm hfin) hfin
  · intro i m hi hm
    have hi2 : i + 1 < l2.length := lt_of_lt_of_le hi hlen12
    exact hpre23 i m hi2 (hpre12 i m hi hm)

theorem sealedPreserved_of_logStep {l l' : List ChatMessage} (h : LogStep l l') :
    SealedPreserved l l' := by
  rcases h with rfl | ⟨e, rfl⟩ | ⟨l₀, a, text, fin, rfl, hfin, rfl⟩
  · exact sealedPreserved_refl _
  · refine ⟨?_, ?_, ?_⟩
    · simp
    · intro i m hm _
      have hi : i < l.length := by
        rcases List.getElem?_eq_some.mp hm with ⟨hi, _⟩
        exact hi
      rw [List.getElem?_append_left hi]
      exact hm
    · intro i m hi hm
      have hi' : i < l.length := by omega
      rw [List.getElem?_append_left hi']
      exact hm
  · refine ⟨by simp, ?_, ?_⟩
    · intro i m hm hfinal
      rcases lt_trichotomy i l₀.length with hlt | heq | hgt
      · rw [List.getElem?_append_left hlt] at hm ⊢
        exact hm
      · subst heq
        rw [List.getElem?_concat_length] at hm
        injection hm with hm'
        rw [← hm'] at hfinal
        rw [hfin] at hfinal
        exact absurd hfinal (by simp)
      · have hle : (l₀ ++ [a]).length ≤ i := by
          simp only [List.length_append, List.length_singleton]
          omega
        rw [List.getElem?_len_le hle] at hm
        exact absurd hm (by simp)
    · intro i m hi hm
      have hlt : i < l₀.length := by
        simp only [List.length_append, List.length_singleton] at hi
        omega
      rw [List.getElem?_append_left hlt] at hm ⊢
      exact hm

theorem sealedPreserved_sealInput (s : AppState) :
    SealedPreserved s.messages (sealInputBuffer s).messages := by
  unfold sealInputBuffer
  split
  · exact sealedPreserved_refl _
  · exact sealedPreserved_of_logStep (logStep_updateLastMessage _ _ _ _ _)

theorem sealedPreserved_sealOutput (s : AppState) :
    SealedPreserved s.messages (sealOutputBuffer s).messages := by
  unfold sealOutputBuffer
  split
  · exact sealedPreserved_refl _
  · exact sealedPreserved_of_logStep (logStep_updateLastMessage _ _ _ _ _)

theorem sealedPreserved_sealOnInterrupt (s : AppState) :
    SealedPreserved s.messages (sealOnInterrupt s).messages := by
  unfold sealOnInterrupt
  split
  · exact sealedPreserved_refl _
  · exact sealedPreserved_of_logStep (logStep_updateLastMessage _ _ _ _ _)

theorem sealedPreserved_handleInput (t : String) (s : AppState) :
    SealedPreserved s.messages (handleInputTranscription t s).messages := by
  unfold handleInputTranscription
  split
  · exact sealedPreserved_refl _
  · exact sealedPreserved_of_logStep (logStep_updateLastMessage _ _ _ _ _)

theorem sealedPreserved_handleOutput (t : String) (s : AppState) :
    SealedPreserved s.messages (handleOutputTranscription t s).messages := by
  unfold handleOutputTranscription
  split
  · exact sealedPreserved_refl _
  · exact sealedPreserved_of_logStep (logStep_updateLastMessage _ _ _ _ _)

theorem messages_handleAudioChunk (a : Option (List Nat)) (now : ℚ) (s : AppState) :
    (handleAudioChunk a now s).messages = s.messages := by
  cases a with
  | none => rfl
  | some bytes =>
      simp only [handleAudioChunk]
      by_cases hc : s.hasOutputContext = true ∧ s.isSpeakerMuted = false
      · rw [if_pos hc]
        cases decodeAudioData bytes outputSampleRate <;> rfl
      · rw [if_neg hc]

theorem sealedPreserved_stepOp (s : AppState) (op : SessionOp) :
    SealedPreserved s.messages (stepOp s op).messages := by
  cases op with
  | inputDelta t => exact sealedPreserved_handleInput t s
  | outputDelta t => exact sealedPreserved_handleOutput t s
  | turnComplete =>
      exact sealedPreserved_trans (sealedPreserved_sealInput s)
        (sealedPreserved_sealOutput (sealInputBuffer s))
  | interrupted now =>
      exact sealedPreserved_sealOnInterrupt (stopAllSources now s)
  | audioChunk b now =>
      rw [show (stepOp s (SessionOp.audioChunk b now)).messages = s.messages from
        messages_handleAudioChunk (some b) now s]
      exact sealedPreserved_refl _

theorem sealedPreserved_runOps (s : AppState) (ops : List SessionOp) :
    SealedPreserved s.messages (runOps s ops).messages := by
  induction ops generalizing s with
  | nil => exact sealedPreserved_refl _
  | cons op rest ih =>
      exact sealedPreserved_trans (sealedPreserved_stepOp s op) (ih (stepOp s op))

/-! ### Creation of a fresh open entry by appendDelta -/

theorem appendDelta_creates (s : AppState) (role : MessageRole) (t : String)
    (hopen : ¬ lastIsOpenFor role s.messages) (ht : t ≠ "")
    (hnw : containsNonWs (bufFor role s ++ t) = true) :
    (appendDelta role t s).messages
      = s.messages ++ [{ id := s.nextId, role := role, text := bufFor role s ++ t,
                         isFinal := false, timestamp := s.nextId }] ∧
    bufFor role (appendDelta role t s) = bufFor role s ++ t := by
  cases role with
  | user =>
      have hnw' : containsNonWs (s.currentInputTrans ++ t) = true := hnw
      unfold appendDelta handleInputTranscription
      rw [if_neg ht]
      refine ⟨?_, rfl⟩
      show updateLastMessage MessageRole.user (s.currentInputTrans ++ t) false
          s.nextId s.messages = _
      rw [updateLastMessage_of_not_open _ _ _ hopen, if_pos hnw']
      rfl
  | model =>
      have hnw' : containsNonWs (s.currentOutputTrans ++ t) = true := hnw
      unfold appendDelta handleOutputTranscription
      rw [if_neg ht]
      refine ⟨?_, rfl⟩
      show updateLastMessage MessageRole.model (s.currentOutputTrans ++ t) false
          s.nextId s.messages = _
      rw [updateLastMessage_of_not_open _ _ _ hopen, if_pos hnw']
      rfl

/-! ### After a seal, the final log position is closed for the sealed role -/

theorem updateTrue_not_lastOpen (role role₀ : MessageRole) (text : String) (newId : Nat)
    (l : List ChatMessage) (h : ¬ lastIsOpenFor role₀ l ∨ role₀ = role) :
    ¬ lastIsOpenFor role₀ (updateLastMessage role text true newId l) := by
  rcases List.eq_nil_or_concat l with rfl | ⟨l₀, a, rfl⟩
  · rw [updateLastMessage_nil]
    split
    · intro hc
      have h2 := ((lastIsOpenFor_concat role₀ [] _).mp hc).2
      simp at h2
    · exact lastIsOpenFor_nil role₀
  · rw [List.concat_eq_append] at h ⊢
    by_cases hopen : a.role = role ∧ a.isFinal = false
    · rw [updateLastMessage_concat_open role text true newId hopen.1 hopen.2]
      intro hc
      have h2 := ((lastIsOpenFor_concat role₀ l₀ _).mp hc).2
      simp at h2
    · rw [updateLastMessage_concat_not_open role text true newId hopen]
      split
      · intro hc
        have h2 := ((lastIsOpenFor_concat role₀ (l₀ ++ [a]) _).mp hc).2
        simp at h2
      · rcases h with h | rfl
        · exact h
        · intro hc
          exact hopen ((lastIsOpenFor_concat _ l₀ a).mp hc)

theorem sealTurn_not_lastOpen (s : AppState) (role : MessageRole)
    (hbuf : bufFor role s ≠ "") :
    ¬ lastIsOpenFor role (handleTurnComplete s).messages := by
  cases role with
  | user =>
      have hbuf0 : s.currentInputTrans ≠ "" := hbuf
      have h1 : ¬ lastIsOpenFor MessageRole.user (sealInputBuffer s).messages := by
        unfold sealInputBuffer
        rw [if_neg hbuf0]
        exact updateTrue_not_lastOpen _ _ _ _ _ (Or.inr rfl)
      unfold handleTurnComplete sealOutputBuffer
      split
      · exact h1
      · exact updateTrue_not_lastOpen _ _ _ _ _ (Or.inl h1)
  | model =>
      have hbuf' : (sealInputBuffer s).currentOutputTrans ≠ "" := by
        unfold sealInputBuffer
        split
        · exact hbuf
        · exact hbuf
      unfold handleTurnComplete sealOutputBuffer
      rw [if_neg hbuf']
      exact updateTrue_not_lastOpen _ _ _ _ _ (Or.inr rfl)

/-! ### USER-side runs keep at most one open entry -/

theorem openCount_le_one_of_allButLastFinal (l : List ChatMessage)
    (h : ∀ m ∈ l.dropLast, m.isFinal = true) (role : MessageRole) :
    openCountFor role l ≤ 1 := by
  rcases List.eq_nil_or_concat l with rfl | ⟨l₀, a, rfl⟩
  · simp [openCountFor]
  · rw [List.concat_eq_append] at h ⊢
    rw [List.dropLast_concat] at h
    unfold openCountFor
    rw [List.countP_append]
    have h0 : List.countP (fun m => decide (m.role = role ∧ m.isFinal = false)) l₀ = 0 := by
      rw [List.countP_eq_zero]
      intro m hm
      have hfin : m.isFinal = true := h m hm
      simp [hfin]
    have h1 : List.countP (fun m => decide (m.role = role ∧ m.isFinal = false)) [a] ≤ 1 := by
      simp only [List.countP_cons, List.countP_nil]
      split <;> omega
    omega

theorem goodLog_update (role : MessageRole) (l : List ChatMessage)
    (text : String) (fin : Bool) (newId : Nat) (h : GoodLog role l) :
    GoodLog role (updateLastMessage role text fin newId l) := by
  obtain ⟨hr, hf⟩ := h
  rcases List.eq_nil_or_concat l with rfl | ⟨l₀, a, rfl⟩
  · rw [updateLastMessage_nil]
    split
    · refine ⟨?_, ?_⟩
      · intro m hm
        simp at hm
        subst hm
        rfl
      · intro m hm
        simp at hm
    · exact ⟨by simp, by simp⟩
  · rw [List.concat_eq_append] at hr hf ⊢
    rw [List.dropLast_concat] at hf
    by_cases hopen : a.role = role ∧ a.isFinal = false
    · rw [updateLastMessage_concat_open _ _ _ _ hopen.1 hopen.2]
      refine ⟨?_, ?_⟩
      · intro m hm
        rcases List.mem_append.mp hm with hm | hm
        · exact hr m (List.mem_append.mpr (Or.inl hm))
        · simp at hm
          subst hm
          exact hopen.1
      · rw [List.dropLast_concat]
        exact hf
    · rw [updateLastMessage_concat_not_open _ _ _ _ hopen]
      split
      · refine ⟨?_, ?_⟩
        · intro m hm
          rcases List.mem_append.mp hm with hm | hm
          · exact hr m hm
          · simp at hm
            rw [hm]
        · rw [List.dropLast_concat]
          intro m hm
          rcases List.mem_append.mp hm with hm | hm
          · exact hf m hm
          · have hma : m = a := by simpa using hm
            have ha : a.role = role := hr a (by simp)
            rw [hma]
            by_contra hcon
            have hfalse : a.isFinal = false := by
              cases hfa : a.isFinal
              · rfl
              · exact absurd hfa hcon
            exact hopen ⟨ha, hfalse⟩
      · exact ⟨hr, by rw [List.dropLast_concat]; exact hf⟩

theorem buffers_handleAudioChunk (a : Option (List Nat)) (now : ℚ) (s : AppState) :
    (handleAudioChunk a now s).currentInputTrans = s.currentInputTrans ∧
    (handleAudioChunk a now s).currentOutputTrans = s.currentOutputTrans := by
  cases a with
  | none => exact ⟨rfl, rfl⟩
  | some bytes =>
      simp only [handleAudioChunk]
      by_cases hc : s.hasOutputContext = true ∧ s.isSpeakerMuted = false
      · rw [if_pos hc]
        cases decodeAudioData bytes outputSampleRate <;> exact ⟨rfl, rfl⟩
      · rw [if_neg hc]
        exact ⟨rfl, rfl⟩

theorem userOnlyInv_step (s : AppState) (op : SessionOp)
    (hop : isUserSideOp op = true) (h : UserOnlyInv s) :
    UserOnlyInv (stepOp s op) := by
  cases op with
  | inputDelta t =>
      show UserOnlyInv (handleInputTranscription t s)
      unfold handleInputTranscription
      split
      · exact h
      · exact ⟨h.1, goodLog_update _ _ _ _ _ h.2⟩
  | outputDelta t => simp [isUserSideOp] at hop
  | turnComplete =>
      have h1 : UserOnlyInv (sealInputBuffer s) := by
        unfold sealInputBuffer
        split
        · exact h
        · exact ⟨h.1, goodLog_update _ _ _ _ _ h.2⟩
      show UserOnlyInv (sealOutputBuffer (sealInputBuffer s))
      unfold sealOutputBuffer
      rw [if_pos h1.1]
      exact h1
  | interrupted now =>
      show UserOnlyInv (sealOnInterrupt (stopAllSources now s))
      unfold sealOnInterrupt
      rw [if_pos (show (stopAllSources now s).currentOutputTrans = "" from h.1)]
      exact ⟨h.1, h.2⟩
  | audioChunk b now =>
      obtain ⟨-, ho⟩ := buffers_handleAudioChunk (some b) now s
      show UserOnlyInv (handleAudioChunk (some b) now s)
      refine ⟨?_, ?_⟩
      · rw [ho]
        exact h.1
      · rw [messages_handleAudioChunk]
        exact h.2

theorem userOnlyInv_runOps (ops : List SessionOp) (s : AppState)
    (hops : ∀ op ∈ ops, isUserSideOp op = true) (h : UserOnlyInv s) :
    UserOnlyInv (runOps s ops) := by
  induction ops generalizing s with
  | nil => exact h
  | cons op rest ih =>
      exact ih (stepOp s op)
        (fun o ho => hops o (List.mem_cons_of_mem op ho))
        (userOnlyInv_step s op (hops op (List.mem_cons_self op rest)) h)

theorem modelOnlyInv_step (s : AppState) (op : SessionOp)
    (hop : isModelSideOp op = true) (h : ModelOnlyInv s) :
    ModelOnlyInv (stepOp s op) := by
  cases op with
  | inputDelta t => simp [isModelSideOp] at hop
  | outputDelta t =>
      show ModelOnlyInv (handleOutputTranscription t s)
      unfold handleOutputTranscription
      split
      · exact h
      · exact ⟨h.1, goodLog_update _ _ _ _ _ h.2⟩
  | turnComplete =>
      have h1 : sealInputBuffer s = s := by
        unfold sealInputBuffer
        rw [if_pos h.1]
      show ModelOnlyInv (sealOutputBuffer (sealInputBuffer s))
      rw [h1]
      unfold sealOutputBuffer
      split
      · exact h
      · exact ⟨h.1, goodLog_update _ _ _ _ _ h.2⟩
  | interrupted now =>
      show ModelOnlyInv (sealOnInterrupt (stopAllSources now s))
      unfold sealOnInterrupt
      split
      · exact ⟨h.1, h.2⟩
      · exact ⟨h.1, goodLog_update _ _ _ _ _ h.2⟩
  | audioChunk b now =>
      obtain ⟨hi, -⟩ := buffers_handleAudioChunk (some b) now s
      show ModelOnlyInv (handleAudioChunk (some b) now s)
      refine ⟨?_, ?_⟩
      · rw [hi]
        exact h.1
      · rw [messages_handleAudioChunk]
        exact h.2

theorem modelOnlyInv_runOps (ops : List SessionOp) (s : AppState)
    (hops : ∀ op ∈ ops, isModelSideOp op = true) (h : ModelOnlyInv s) :
    ModelOnlyInv (runOps s ops) := by
  induction ops generalizing s with
  | nil => exact h
  | cons op rest ih =>
      exact ih (stepOp s op)
        (fun o ho => hops o (List.mem_cons_of_mem op ho))
        (modelOnlyInv_step s op (hops op (List.mem_cons_self op rest)) h)

theorem atMostOne_of_userOnlyInv (s : AppState) (h : UserOnlyInv s) :
    AtMostOneOpenPerRole s.messages := by
  obtain ⟨-, hr, hf⟩ := h
  constructor
  · exact openCount_le_one_of_allButLastFinal _ hf _
  · have h0 : openCountFor MessageRole.model s.messages = 0 := by
      unfold openCountFor
      rw [List.countP_eq_zero]
      intro m hm
      have hu := hr m hm
      simp [hu]
    omega

theorem atMostOne_of_modelOnlyInv (s : AppState) (h : ModelOnlyInv s) :
    AtMostOneOpenPerRole s.messages := by
  obtain ⟨-, hr, hf⟩ := h
  constructor
  · have h0 : openCountFor MessageRole.user s.messages = 0 := by
      unfold openCountFor
      rw [List.countP_eq_zero]
      intro m hm
      have hu := hr m hm
      simp [hu]
    omega
  · exact openCount_le_one_of_allButLastFinal _ hf _

theorem userOnlyInv_initial : UserOnlyInv initialState := by
  refine ⟨rfl, ?_, ?_⟩ <;> intro m hm <;> simp [initialState] at hm

theorem modelOnlyInv_initial : ModelOnlyInv initialState := by
  refine ⟨rfl, ?_, ?_⟩ <;> intro m hm <;> simp [initialState] at hm

/-! ### Claim theorems -/

/-- C1, counterexample: the spec invariant `at most one non-final entry
per role` fails on the code.  updateLastMessage inspects only the final
array element, so the run USER delta `a`, MODEL delta `x`, USER delta `b`
leaves two non-final USER entries in the log. -/
theorem C1_counterexample :
    ¬ AtMostOneOpenPerRole (runOps initialState
        [SessionOp.inputDelta "a", SessionOp.outputDelta "x",
         SessionOp.inputDelta "b"]).messages ∧
    openCountFor MessageRole.user (runOps initialState
        [SessionOp.inputDelta "a", SessionOp.outputDelta "x",
         SessionOp.inputDelta "b"]).messages = 2 := by
  decide

/-- C1, amended: a fragment containing a non-whitespace character, for a
role whose open entry is not in the final log position, creates exactly
one new open entry of that role (and grows the buffer); and for event
sequences whose transcript deltas all concern a single role — either all
USER or all MODEL, with turn completions, interruptions and audio chunks
allowed — the log holds at most one non-final entry per role at every
time.  With deltas of the two roles interleaved the code does not
guarantee the per-role bound, as the counterexample shows. -/
theorem C1_open_entry_invariant :
    (∀ (s : AppState) (role : MessageRole) (t : String),
        ¬ lastIsOpenFor role s.messages → t ≠ "" →
        containsNonWs (bufFor role s ++ t) = true →
        (appendDelta role t s).messages
          = s.messages ++ [{ id := s.nextId, role := role, text := bufFor role s ++ t,
                             isFinal := false, timestamp := s.nextId }] ∧
        bufFor role (appendDelta role t s) = bufFor role s ++ t) ∧
    (∀ ops : List SessionOp, (∀ op ∈ ops, isUserSideOp op = true) →
        AtMostOneOpenPerRole (runOps initialState ops).messages) ∧
    (∀ ops : List SessionOp, (∀ op ∈ ops, isModelSideOp op = true) →
        AtMostOneOpenPerRole (runOps initialState ops).messages) := by
  refine ⟨?_, ?_, ?_⟩
  · intro s role t hopen ht hnw
    exact appendDelta_creates s role t hopen ht hnw
  · intro ops hops
    exact atMostOne_of_userOnlyInv _
      (userOnlyInv_runOps ops initialState hops userOnlyInv_initial)
  · intro ops hops
    exact atMostOne_of_modelOnlyInv _
      (modelOnlyInv_runOps ops initialState hops modelOnlyInv_initial)

/-- Witness for C1: the amended theorem applied to a fresh log receiving
the USER fragment `Hi`; to the USER-side run `Hi`, turn complete, `yo`
with an audio chunk; and to the MODEL-side run `Hola`, interruption,
`si`. -/
theorem C1_open_entry_invariant_witness :
    ((appendDelta MessageRole.user "Hi" initialState).messages
        = initialState.messages
          ++ [{ id := initialState.nextId, role := MessageRole.user,
                text := bufFor MessageRole.user initialState ++ "Hi", isFinal := false,
                timestamp := initialState.nextId }] ∧
      bufFor MessageRole.user (appendDelta MessageRole.user "Hi" initialState)
        = bufFor MessageRole.user initialState ++ "Hi") ∧
    AtMostOneOpenPerRole (runOps initialState
        [SessionOp.inputDelta "Hi", SessionOp.turnComplete,
         SessionOp.audioChunk [0, 0] 0, SessionOp.inputDelta "yo"]).messages ∧
    AtMostOneOpenPerRole (runOps initialState
        [SessionOp.outputDelta "Hola", SessionOp.interrupted 0,
         SessionOp.outputDelta "si"]).messages :=
  ⟨C1_open_entry_invariant.1 initialState MessageRole.user "Hi"
      (by decide) (by decide) (by decide),
   C1_open_entry_invariant.2.1
      [SessionOp.inputDelta "Hi", SessionOp.turnComplete,
       SessionOp.audioChunk [0, 0] 0, SessionOp.inputDelta "yo"]
      (by decide),
   C1_open_entry_invariant.2.2
      [SessionOp.outputDelta "Hola", SessionOp.interrupted 0,
       SessionOp.outputDelta "si"]
      (by decide)⟩

/-- C7: once an entry is sealed no session event mutates its text, role or
finality; the log never shrinks and every non-final-position entry keeps
its index and value, so entries stay in creation order; an appendDelta
whose role has no open entry in the final log position appends one fresh
open entry, leaving every existing entry in place; and after sealTurn the
sealed role has no open entry in the final position, so its next delta
appends rather than mutates. -/
theorem C7_sealed_entries_immutable :
    (∀ (s : AppState) (ops : List SessionOp),
        SealedPreserved s.messages (runOps s ops).messages) ∧
    (∀ (s : AppState) (role : MessageRole) (t : String),
        ¬ lastIsOpenFor role s.messages → t ≠ "" →
        containsNonWs (bufFor role s ++ t) = true →
        (appendDelta role t s).messages
          = s.messages ++ [{ id := s.nextId, role := role, text := bufFor role s ++ t,
                             isFinal := false, timestamp := s.nextId }]) ∧
    (∀ (s : AppState) (role : MessageRole),
        bufFor role s ≠ "" →
        ¬ lastIsOpenFor role (handleTurnComplete s).messages) :=
  ⟨fun s ops => sealedPreserved_runOps s ops,
   fun s role t h1 h2 h3 => (appendDelta_creates s role t h1 h2 h3).1,
   fun s role h => sealTurn_not_lastOpen s role h⟩

/-- Witness for C7: the theorem applied to the sealed one-entry log
produced by USER delta `a` and a turn completion, receiving the later
USER fragment `b`; and to the state with the open USER entry `a` at a
turn completion. -/
theorem C7_sealed_entries_immutable_witness :
    SealedPreserved initialState.messages
      (runOps initialState [SessionOp.inputDelta "a"]).messages ∧
    (appendDelta MessageRole.user "b"
        (runOps initialState [SessionOp.inputDelta "a", SessionOp.turnComplete])).messages
      = (runOps initialState [SessionOp.inputDelta "a", SessionOp.turnComplete]).messages
        ++ [{ id := (runOps initialState
                [SessionOp.inputDelta "a", SessionOp.turnComplete]).nextId,
              role := MessageRole.user,
              text := bufFor MessageRole.user (runOps initialState
                [SessionOp.inputDelta "a", SessionOp.turnComplete]) ++ "b",
              isFinal := false,
              timestamp := (runOps initialState
                [SessionOp.inputDelta "a", SessionOp.turnComplete]).nextId }] ∧
    ¬ lastIsOpenFor MessageRole.user
        (handleTurnComplete (runOps initialState [SessionOp.inputDelta "a"])).messages :=
  ⟨C7_sealed_entries_immutable.1 initialState [SessionOp.inputDelta "a"],
   C7_sealed_entries_immutable.2.1
      (runOps initialState [SessionOp.inputDelta "a", SessionOp.turnComplete])
      MessageRole.user "b" (by decide) (by decide) (by decide),
   C7_sealed_entries_immutable.2.2
      (runOps initialState [SessionOp.inputDelta "a"]) MessageRole.user (by decide)⟩

/-! ### Delta sequences concatenate -/

theorem appendDelta_empty (role : MessageRole) (s : AppState) :
    appendDelta role "" s = s := by
  cases role <;> rfl

theorem appendDelta_eq (role : MessageRole) (f : String) (s : AppState) (hf : f ≠ "") :
    (appendDelta role f s).messages
      = updateLastMessage role (bufFor role s ++ f) false s.nextId s.messages ∧
    bufFor role (appendDelta role f s) = bufFor role s ++ f := by
  cases role with
  | user =>
      unfold appendDelta handleInputTranscription
      rw [if_neg hf]
      exact ⟨rfl, rfl⟩
  | model =>
      unfold appendDelta handleOutputTranscription
      rw [if_neg hf]
      exact ⟨rfl, rfl⟩

theorem deltaInv_step (role : MessageRole) (f : String) (s : AppState)
    (h : DeltaInv role s) :
    DeltaInv role (appendDelta role f s) ∧
    bufFor role (appendDelta role f s) = bufFor role s ++ f := by
  by_cases hf : f = ""
  · subst hf
    rw [appendDelta_empty]
    exact ⟨h, (String.append_empty _).symm⟩
  · obtain ⟨hmsg, hbuf⟩ := appendDelta_eq role f s hf
    refine ⟨?_, hbuf⟩
    rcases h with ⟨hopen, hws⟩ | ⟨m, hlast, hrole, hfin, htext⟩
    · by_cases hnw : containsNonWs (bufFor role s ++ f) = true
      · right
        refine ⟨{ id := s.nextId, role := role, text := bufFor role s ++ f,
                  isFinal := false, timestamp := s.nextId }, ?_, rfl, rfl, ?_⟩
        · rw [hmsg, updateLastMessage_of_not_open _ _ _ hopen, if_pos hnw,
              List.getLast?_concat]
        · rw [hbuf]
      · left
        constructor
        · unfold lastIsOpenFor
          rw [hmsg, updateLastMessage_of_not_open _ _ _ hopen, if_neg hnw]
          exact hopen
        · rw [hbuf]
          cases hb : containsNonWs (bufFor role s ++ f)
          · rfl
          · exact absurd hb hnw
    · obtain ⟨l₀, hm0⟩ : ∃ l₀, s.messages = l₀ ++ [m] := by
        rcases List.eq_nil_or_concat s.messages with hnil | ⟨l₀, a, hconc⟩
        · rw [hnil] at hlast
          simp at hlast
        · rw [List.concat_eq_append] at hconc
          refine ⟨l₀, ?_⟩
          rw [hconc] at hlast ⊢
          rw [List.getLast?_concat] at hlast
          injection hlast with h'
          rw [h']
      right
      refine ⟨{ m with text := bufFor role s ++ f, isFinal := false }, ?_, hrole, rfl, ?_⟩
      · rw [hmsg, hm0, updateLastMessage_concat_open _ _ _ _ hrole hfin,
            List.getLast?_concat]
      · rw [hbuf]

theorem deltaInv_run (role : MessageRole) (frags : List String) (s : AppState)
    (h : DeltaInv role s) :
    DeltaInv role (appendDeltas role frags s) ∧
    bufFor role (appendDeltas role frags s) = bufFor role s ++ concatAll frags := by
  induction frags generalizing s with
  | nil => exact ⟨h, (String.append_empty _).symm⟩
  | cons f fs ih =>
      obtain ⟨h1, hb1⟩ := deltaInv_step role f s h
      obtain ⟨h2, hb2⟩ := ih (appendDelta role f s) h1
      refine ⟨h2, ?_⟩
      show bufFor role (appendDeltas role fs (appendDelta role f s)) = _
      rw [hb2, hb1]
      show _ = bufFor role s ++ (f ++ concatAll fs)
      rw [String.append_assoc]

/-- C8: starting from a state where the role has an empty accumulation
buffer and no open entry in the final log position, a sequence of
appendDelta calls for that role with no intervening seal leaves the open
entry of the role carrying exactly the concatenation of all fragments in
call order (provided the concatenation is non-empty after trimming, which
is what makes the entry exist at all). -/
theorem C8_delta_concatenation :
    ∀ (role : MessageRole) (frags : List String) (s : AppState),
      bufFor role s = "" →
      ¬ lastIsOpenFor role s.messages →
      containsNonWs (concatAll frags) = true →
      bufFor role (appendDeltas role frags s) = concatAll frags ∧
      ∃ m, (appendDeltas role frags s).messages.getLast? = some m ∧
        m.role = role ∧ m.isFinal = false ∧ m.text = concatAll frags := by
  intro role frags s hbuf hopen hnw
  have hInv : DeltaInv role s := Or.inl ⟨hopen, by rw [hbuf]; rfl⟩
  obtain ⟨hInv', hb⟩ := deltaInv_run role frags s hInv
  rw [hbuf, String.empty_append] at hb
  refine ⟨hb, ?_⟩
  rcases hInv' with ⟨-, hws⟩ | ⟨m, hlast, hrole, hfin, htext⟩
  · rw [hb, hnw] at hws
    exact absurd hws (by simp)
  · exact ⟨m, hlast, hrole, hfin, by rw [htext, hb]⟩

/-- Witness for C8: the fragments `Hi` and ` there` on the USER role from
the fresh state produce the open entry `Hi there`. -/
theorem C8_delta_concatenation_witness :
    bufFor MessageRole.user
        (appendDeltas MessageRole.user ["Hi", " there"] initialState)
      = concatAll ["Hi", " there"] ∧
    ∃ m, (appendDeltas MessageRole.user ["Hi", " there"] initialState).messages.getLast?
        = some m ∧
      m.role = MessageRole.user ∧ m.isFinal = false ∧ m.text = concatAll ["Hi", " there"] :=
  C8_delta_concatenation MessageRole.user ["Hi", " there"] initialState
    rfl (by decide) (by decide)

/-! ### Interruption sealing -/

/-- C6, counterexample: the claim quantifies over every interruption
arriving while the MODEL role has an open entry, but when that open entry
is not in the final log position (a USER delta interleaved after it) the
code does not seal it: the open MODEL entry at index 0 keeps text
`Hola, como` and stays non-final, while a new final entry is appended at
index 2. -/
theorem C6_counterexample :
    ((runOps initialState [SessionOp.outputDelta "Hola, como", SessionOp.inputDelta "x",
        SessionOp.interrupted 0]).messages.map
          (fun m => (m.role, m.text, m.isFinal)))
      = [(MessageRole.model, "Hola, como", false),
         (MessageRole.user, "x", false),
         (MessageRole.model, "Hola, como [Interrupted]", true)] := by
  decide

/-- C6, amended: when the interruption arrives while the MODEL open entry
sits in the final log position and its text equals the MODEL accumulation
buffer (the situation produced by uninterleaved MODEL deltas), the
handler stops playback (live set emptied, clock reset to the device time)
and seals that entry: text becomes `t ++ " [Interrupted]"`, it turns
final, and the buffer is cleared.  When the open MODEL entry is not in
the final position it is not sealed; a new final entry holding
`buffer ++ " [Interrupted]"` is appended instead. -/
theorem C6_interrupt_seals_last_model_entry :
    ∀ (s : AppState) (now : ℚ) (l : List ChatMessage) (a : ChatMessage),
      s.hasOutputContext = true →
      s.messages = l ++ [a] →
      a.role = MessageRole.model →
      a.isFinal = false →
      s.currentOutputTrans ≠ "" →
      (handleInterrupted now s).audioSources = [] ∧
      (handleInterrupted now s).nextStartTime = now ∧
      (handleInterrupted now s).currentOutputTrans = "" ∧
      (handleInterrupted now s).messages
        = l ++ [{ a with text := s.currentOutputTrans ++ " [Interrupted]", isFinal := true }] := by
  intro s now l a hctx hmsg hrole hfin hbuf
  unfold handleInterrupted sealOnInterrupt
  have hb1 : (stopAllSources now s).currentOutputTrans ≠ "" := hbuf
  rw [if_neg hb1]
  refine ⟨rfl, ?_, rfl, ?_⟩
  · show (if s.hasOutputContext = true then now else 0) = now
    rw [if_pos hctx]
  · show updateLastMessage MessageRole.model
        ((stopAllSources now s).currentOutputTrans ++ " [Interrupted]")
        true (stopAllSources now s).nextId (stopAllSources now s).messages = _
    have hm : (stopAllSources now s).messages = l ++ [a] := hmsg
    rw [hm, updateLastMessage_concat_open _ _ _ _ hrole hfin]
    rfl

/-- Witness for C6: the MODEL delta `Hola, como` followed by an
interruption at device time 2 seals the entry with the marker and leaves
the live set empty. -/
theorem C6_interrupt_seals_last_model_entry_witness :
    (handleInterrupted 2 (runOps { initialState with hasOutputContext := true }
        [SessionOp.outputDelta "Hola, como"])).audioSources = [] ∧
    (handleInterrupted 2 (runOps { initialState with hasOutputContext := true }
        [SessionOp.outputDelta "Hola, como"])).nextStartTime = 2 ∧
    (handleInterrupted 2 (runOps { initialState with hasOutputContext := true }
        [SessionOp.outputDelta "Hola, como"])).currentOutputTrans = "" ∧
    (handleInterrupted 2 (runOps { initialState with hasOutputContext := true }
        [SessionOp.outputDelta "Hola, como"])).messages
      = [] ++ [{ id := 0, role := MessageRole.model, text := (runOps { initialState with hasOutputContext := true } [SessionOp.outputDelta "Hola, como"]).currentOutputTrans ++ " [Interrupted]", isFinal := true, timestamp := 0 }] :=
  C6_interrupt_seals_last_model_entry
    (runOps { initialState with hasOutputContext := true }
      [SessionOp.outputDelta "Hola, como"])
    2 []
    { id := 0, role := MessageRole.model, text := "Hola, como", isFinal := false, timestamp := 0 }
    rfl (by decide) rfl rfl (by decide)

/-! ### Playback scheduling -/

theorem audio_sealOnInterrupt (s : AppState) :
    (sealOnInterrupt s).audioSources = s.audioSources ∧
    (sealOnInterrupt s).nextStartTime = s.nextStartTime ∧
    (sealOnInterrupt s).hasOutputContext = s.hasOutputContext ∧
    (sealOnInterrupt s).isSpeakerMuted = s.isSpeakerMuted := by
  unfold sealOnInterrupt
  split <;> exact ⟨rfl, rfl, rfl, rfl⟩

theorem handleInterrupted_components (now : ℚ) (s : AppState)
    (hctx : s.hasOutputContext = true) :
    (handleInterrupted now s).audioSources = [] ∧
    (handleInterrupted now s).nextStartTime = now ∧
    (handleInterrupted now s).hasOutputContext = true ∧
    (handleInterrupted now s).isSpeakerMuted = s.isSpeakerMuted := by
  unfold handleInterrupted
  obtain ⟨h1, h2, h3, h4⟩ := audio_sealOnInterrupt (stopAllSources now s)
  rw [h1, h2, h3, h4]
  refine ⟨rfl, ?_, hctx, rfl⟩
  show (if s.hasOutputContext = true then now else 0) = now
  rw [if_pos hctx]

theorem handleAudioChunk_enq (bytes : List Nat) (now : ℚ) (s : AppState)
    (hctx : s.hasOutputContext = true) (hmute : s.isSpeakerMuted = false)
    (buffer : PlaybackBuffer)
    (hdec : decodeAudioData bytes outputSampleRate = some buffer) :
    (handleAudioChunk (some bytes) now s).audioSources
      = s.audioSources
        ++ [{ startAt := max s.nextStartTime now, duration := buffer.duration }] ∧
    (handleAudioChunk (some bytes) now s).nextStartTime
      = max s.nextStartTime now + buffer.duration := by
  simp only [handleAudioChunk]
  rw [if_pos ⟨hctx, hmute⟩, hdec]
  exact ⟨rfl, rfl⟩

theorem decode_duration_nonneg (bytes : List Nat) (buffer : PlaybackBuffer)
    (hdec : decodeAudioData bytes outputSampleRate = some buffer) :
    0 ≤ buffer.duration := by
  unfold decodeAudioData at hdec
  split at hdec
  · injection hdec with h
    rw [← h]
    show (0 : ℚ) ≤ ((bytes.length / 2 : Nat) : ℚ) / outputSampleRate
    refine div_nonneg (Nat.cast_nonneg _) ?_
    unfold outputSampleRate
    norm_num
  · exact absurd hdec (by simp)

theorem segInv_handleAudioChunk (a : Option (List Nat)) (now : ℚ) (s : AppState)
    (hb : SegBounded s) (ho : SegOrdered s.audioSources) :
    SegBounded (handleAudioChunk a now s) ∧
    SegOrdered (handleAudioChunk a now s).audioSources := by
  cases a with
  | none => exact ⟨hb, ho⟩
  | some bytes =>
      by_cases hc : s.hasOutputContext = true ∧ s.isSpeakerMuted = false
      · cases hdec : decodeAudioData bytes outputSampleRate with
        | none =>
            have hid : handleAudioChunk (some bytes) now s = s := by
              simp only [handleAudioChunk]
              rw [if_pos hc, hdec]
            rw [hid]
            exact ⟨hb, ho⟩
        | some buffer =>
            obtain ⟨he, hn⟩ :=
              handleAudioChunk_enq bytes now s hc.1 hc.2 buffer hdec
            have hdur : 0 ≤ buffer.duration := decode_duration_nonneg bytes buffer hdec
            constructor
            · intro seg hseg
              rw [he] at hseg
              rw [hn]
              rcases List.mem_append.mp hseg with hseg | hseg
              · obtain ⟨hd, hend⟩ := hb seg hseg
                refine ⟨hd, ?_⟩
                calc seg.startAt + seg.duration
                    ≤ s.nextStartTime := hend
                  _ ≤ max s.nextStartTime now := le_max_left _ _
                  _ ≤ max s.nextStartTime now + buffer.duration :=
                      le_add_of_nonneg_right hdur
              · have hseq : seg = { startAt := max s.nextStartTime now, duration := buffer.duration } := by
                  simpa using hseg
                rw [hseq]
                exact ⟨hdur, le_refl _⟩
            · unfold SegOrdered
              rw [he, List.pairwise_append]
              refine ⟨ho, by simp, ?_⟩
              intro x hx y hy
              have hyeq : y = { startAt := max s.nextStartTime now, duration := buffer.duration } := by
                simpa using hy
              rw [hyeq]
              obtain ⟨-, hend⟩ := hb x hx
              calc x.startAt + x.duration
                  ≤ s.nextStartTime := hend
                _ ≤ max s.nextStartTime now := le_max_left _ _
      · have hid : handleAudioChunk (some bytes) now s = s := by
          simp only [handleAudioChunk]
          rw [if_neg hc]
        rw [hid]
        exact ⟨hb, ho⟩

theorem segInv_runEnqueues (chunks : List (List Nat × ℚ)) (s : AppState)
    (hb : SegBounded s) (ho : SegOrdered s.audioSources) :
    SegBounded (runEnqueues s chunks) ∧
    SegOrdered (runEnqueues s chunks).audioSources := by
  induction chunks generalizing s with
  | nil => exact ⟨hb, ho⟩
  | cons c rest ih =>
      obtain ⟨hb1, ho1⟩ := segInv_handleAudioChunk (some c.1) c.2 s hb ho
      exact ih (handleAudioChunk (some c.1) c.2 s) hb1 ho1

/-- C4: each successful enqueue schedules its segment at
`max PlaybackClock outputDeviceNow` and advances the clock to
`startAt + duration`; consequently along any run of enqueues the
scheduled segments (kept in enqueue order) are pairwise ordered with
each earlier segment ending no later than each later one starts, so
segments never overlap and playback order equals enqueue order. -/
theorem C4_enqueue_scheduling :
    (∀ (s : AppState) (bytes : List Nat) (now : ℚ) (buffer : PlaybackBuffer),
        s.hasOutputContext = true → s.isSpeakerMuted = false →
        decodeAudioData bytes outputSampleRate = some buffer →
        (handleAudioChunk (some bytes) now s).audioSources
          = s.audioSources
            ++ [{ startAt := max s.nextStartTime now, duration := buffer.duration }] ∧
        (handleAudioChunk (some bytes) now s).nextStartTime
          = max s.nextStartTime now + buffer.duration) ∧
    (∀ (chunks : List (List Nat × ℚ)) (s : AppState),
        SegBounded s → SegOrdered s.audioSources →
        SegOrdered (runEnqueues s chunks).audioSources) :=
  ⟨fun s bytes now buffer hctx hmute hdec =>
      handleAudioChunk_enq bytes now s hctx hmute buffer hdec,
   fun chunks s hb ho => (segInv_runEnqueues chunks s hb ho).2⟩

/-- Witness for C4: a two-byte chunk enqueued into the fresh connected
state, and a two-chunk run from the fresh connected state. -/
theorem C4_enqueue_scheduling_witness :
    ((handleAudioChunk (some [0, 0]) 0 connectedState).audioSources
        = connectedState.audioSources
          ++ [{ startAt := max connectedState.nextStartTime 0,
                duration := twoByteBuffer.duration }] ∧
      (handleAudioChunk (some [0, 0]) 0 connectedState).nextStartTime
        = max connectedState.nextStartTime 0 + twoByteBuffer.duration) ∧
    SegOrdered (runEnqueues connectedState [([0, 0], 0), ([0, 0, 0, 0], 1)]).audioSources :=
  ⟨C4_enqueue_scheduling.1 connectedState [0, 0] 0 twoByteBuffer rfl rfl rfl,
   C4_enqueue_scheduling.2 [([0, 0], 0), ([0, 0, 0, 0], 1)] connectedState
      (fun seg hseg => absurd hseg (List.not_mem_nil seg))
      List.Pairwise.nil⟩

/-- C5: for any state with any number of live segments, the interruption
branch and stopAudio both empty the live-segment set and reset the clock
to the output device time (not to zero); a subsequent enqueue at a device
time at or after the reset starts exactly at that device time. -/
theorem C5_stopAll_resets :
    ∀ (s : AppState) (now : ℚ),
      s.hasOutputContext = true →
      (handleInterrupted now s).audioSources = [] ∧
      (handleInterrupted now s).nextStartTime = now ∧
      (stopAudio now s).audioSources = [] ∧
      (stopAudio now s).nextStartTime = now ∧
      (∀ (bytes : List Nat) (buffer : PlaybackBuffer) (later : ℚ),
        now ≤ later →
        s.isSpeakerMuted = false →
        decodeAudioData bytes outputSampleRate = some buffer →
        (handleAudioChunk (some bytes) later (handleInterrupted now s)).audioSources
          = [{ startAt := later, duration := buffer.duration }]) := by
  intro s now hctx
  obtain ⟨h1, h2, h3, h4⟩ := handleInterrupted_components now s hctx
  refine ⟨h1, h2, rfl, ?_, ?_⟩
  · show (if s.hasOutputContext = true then now else 0) = now
    rw [if_pos hctx]
  · intro bytes buffer later hle hmute hdec
    obtain ⟨he, -⟩ := handleAudioChunk_enq bytes later (handleInterrupted now s)
      h3 (h4.trans hmute) buffer hdec
    rw [he, h1, h2, max_eq_right hle]
    simp

/-- Witness for C5: stopping two live segments at device time 5 empties
the set, resets the clock to 5, and an enqueue at device time 6 starts
at 6. -/
theorem C5_stopAll_resets_witness :
    (handleInterrupted 5 { connectedState with
        audioSources := [{ startAt := 0, duration := 1 }, { startAt := 1, duration := 2 }]
        nextStartTime := 3 }).audioSources = [] ∧
    (handleInterrupted 5 { connectedState with
        audioSources := [{ startAt := 0, duration := 1 }, { startAt := 1, duration := 2 }]
        nextStartTime := 3 }).nextStartTime = 5 ∧
    (stopAudio 5 { connectedState with
        audioSources := [{ startAt := 0, duration := 1 }, { startAt := 1, duration := 2 }]
        nextStartTime := 3 }).audioSources = [] ∧
    (stopAudio 5 { connectedState with
        audioSources := [{ startAt := 0, duration := 1 }, { startAt := 1, duration := 2 }]
        nextStartTime := 3 }).nextStartTime = 5 ∧
    (handleAudioChunk (some [0, 0]) 6 (handleInterrupted 5 { connectedState with
        audioSources := [{ startAt := 0, duration := 1 }, { startAt := 1, duration := 2 }]
        nextStartTime := 3 })).audioSources
      = [{ startAt := 6, duration := twoByteBuffer.duration }] := by
  obtain ⟨h1, h2, h3, h4, h5⟩ := C5_stopAll_resets { connectedState with
      audioSources := [{ startAt := 0, duration := 1 }, { startAt := 1, duration := 2 }]
      nextStartTime := 3 } 5 rfl
  exact ⟨h1, h2, h3, h4, h5 [0, 0] twoByteBuffer 6 (by norm_num) rfl rfl⟩

/-! ### Error handling -/

/-- C9: an inbound audio payload whose byte length is odd fails to decode
(spec 4.1); the catch block logs the error and drops the chunk, leaving
the whole component state unchanged, so any later message is processed
exactly as it would have been without the bad chunk — a decode error is
never fatal to the session. -/
theorem C9_decode_error_not_fatal :
    ∀ (s : AppState) (bytes : List Nat) (now : ℚ),
      bytes.length % 2 ≠ 0 →
      handleAudioChunk (some bytes) now s = s ∧
      (∀ (msg : ServerMsg) (later : ℚ),
        onmessage msg later (handleAudioChunk (some bytes) now s)
          = onmessage msg later s) := by
  intro s bytes now hodd
  have hdec : decodeAudioData bytes outputSampleRate = none := by
    unfold decodeAudioData
    rw [if_neg hodd]
  have hid : handleAudioChunk (some bytes) now s = s := by
    simp only [handleAudioChunk]
    by_cases hc : s.hasOutputContext = true ∧ s.isSpeakerMuted = false
    · rw [if_pos hc, hdec]
    · rw [if_neg hc]
  exact ⟨hid, fun msg later => by rw [hid]⟩

/-- Witness for C9: the three-byte chunk `[1, 2, 3]` is dropped by the
connected state and a later transcript message is processed identically. -/
theorem C9_decode_error_not_fatal_witness :
    handleAudioChunk (some [1, 2, 3]) 0 connectedState = connectedState ∧
    onmessage laterMsg 1 (handleAudioChunk (some [1, 2, 3]) 0 connectedState)
      = onmessage laterMsg 1 connectedState :=
  ⟨(C9_decode_error_not_fatal connectedState [1, 2, 3] 0 (by decide)).1,
   (C9_decode_error_not_fatal connectedState [1, 2, 3] 0 (by decide)).2 laterMsg 1⟩

/-- C10: connect with no API key configured only sets the user-visible
error message `Missing API Key in environment variables.` and returns:
connection state, microphone acquisition, opened-session count, transcript
log, mute flags, clock and live set are all left unchanged. -/
theorem C10_missing_api_key :
    ∀ (s : AppState) (mediaOk : Bool) (now : ℚ),
      connect false mediaOk now s
        = { s with errorMsg := some "Missing API Key in environment variables." } ∧
      (connect false mediaOk now s).connectionState = s.connectionState ∧
      (connect false mediaOk now s).micAcquired = s.micAcquired ∧
      (connect false mediaOk now s).sessionsOpened = s.sessionsOpened ∧
      (connect false mediaOk now s).messages = s.messages := by
  intro s mediaOk now
  exact ⟨rfl, rfl, rfl, rfl, rfl⟩

/-- C3, counterexample: connect contains no guard on the connection
state.  Called in the `connected` state (with an API key and a granted
microphone) it does not reject: it re-enters `connecting` and opens a
second remote session. -/
theorem C3_counterexample :
    connectedState.connectionState = ConnectionState.connected ∧
    (connect true true 0 connectedState).connectionState
      ≠ connectedState.connectionState ∧
    (connect true true 0 connectedState).sessionsOpened
      = connectedState.sessionsOpened + 1 ∧
    (connect true true 0 connectedState).micAcquired = true := by
  decide

/-- C3, amended: connect() itself never rejects based on the connection
state: invoked while `connecting` or `connected` (with an API key
configured and media granted) it proceeds — transitions to `connecting`,
clears the error, acquires the device and opens a new remote session.
The only rejection inside connect() is the missing-API-key check; keeping
start unavailable while connecting/connected is done by the UI, which
renders the start control only in the disconnected and error states. -/
theorem C3_start_does_not_reject :
    ∀ (s : AppState) (now : ℚ),
      (s.connectionState = ConnectionState.connecting ∨
       s.connectionState = ConnectionState.connected) →
      (connect true true now s).connectionState = ConnectionState.connecting ∧
      (connect true true now s).micAcquired = true ∧
      (connect true true now s).sessionsOpened = s.sessionsOpened + 1 ∧
      (connect true true now s).errorMsg = none := by
  intro s now _
  exact ⟨rfl, rfl, rfl, rfl⟩

/-- Witness for C3: the amended theorem applied in the connected state. -/
theorem C3_start_does_not_reject_witness :
    (connect true true 0 connectedState).connectionState = ConnectionState.connecting ∧
    (connect true true 0 connectedState).micAcquired = true ∧
    (connect true true 0 connectedState).sessionsOpened
      = connectedState.sessionsOpened + 1 ∧
    (connect true true 0 connectedState).errorMsg = none :=
  C3_start_does_not_reject connectedState 0 (Or.inr rfl)

/-- C2: evaluation of the capture pipeline at the claim scenario.  The
installed onaudioprocess closure tests the `isMicMuted` binding captured
when connect() ran (false), not the live React state, so after
`setMicMuted(true)` three capture frames still produce three sends where
the claim requires zero — the mute gate of the source is a stale-closure
bug. -/
theorem C2_mute_stale_closure :
    (captureRun (installHandler { micMutedState := false, handlerCaptured := none, sends := 0 })
        [CaptureEvent.setMicMuted true, CaptureEvent.frame, CaptureEvent.frame,
         CaptureEvent.frame]).sends = 3 ∧
    (captureRun (installHandler { micMutedState := false, handlerCaptured := none, sends := 0 })
        [CaptureEvent.setMicMuted true, CaptureEvent.frame, CaptureEvent.frame,
         CaptureEvent.frame]).micMutedState = true := by
  decide

end LiveTranslator
